import Mathlib

/-!
Shallow embedding of `src/src/extension.ts` (vs-buddy).

Conventions of the embedding:
* JavaScript numbers that hold epoch milliseconds or durations are modelled
  as `Int` (they are integer-valued in every execution of this code).
* `x | null` fields are `Option Int` / `Option UsageData`.
* `Math.floor(a / b)` on integer-valued operands is `Int.fdiv`
  (floor division); the JavaScript `%` operator is `Int.tmod`
  (remainder truncating toward zero).
* The VS Code `Memento` (`globalState`) is a single optional slot holding the
  value stored under the key `usageData`; `globalState.get(k) || default`
  becomes `Option.getD` (an object is always truthy, `undefined` is falsy).
* A JavaScript `Map` built by insertion is an association list in key
  insertion order; `Map.get` is an ordered first-key lookup.
* The wall clock (`new Date()`) is external: each lifecycle operation takes
  the captured instant (and, for `startNewSession`, the formatted calendar
  date) as an explicit argument.
-/

/-- `interface UsageSession` (extension.ts lines 5-10). -/
structure UsageSession where
  startTime : Int
  endTime : Option Int
  date : String
  duration : Option Int
deriving DecidableEq, Repr

/-- `interface UsageData` (extension.ts lines 12-15). -/
structure UsageData where
  sessions : List UsageSession
  totalTimeMs : Int
deriving DecidableEq, Repr

/-- The default log `{ sessions: [], totalTimeMs: 0 }` used when the store
holds nothing (extension.ts lines 66 and 88). -/
def emptyUsage : UsageData := { sessions := [], totalTimeMs := 0 }

/-- The process state: the module-level `currentSession` variable
(line 17) and the `globalState` store content under the key `usageData`.
`writes` counts the calls to `globalState.update` so that "no store write
occurs" is expressible. -/
structure ExtState where
  currentSession : Option UsageSession
  store : Option UsageData
  writes : Nat
deriving DecidableEq, Repr

/-- `startNewSession` (extension.ts lines 43-51): overwrites
`currentSession` with a fresh open session; `now` is `new Date().getTime()`
and `date` is `now.toISOString().split('T')[0]`, both captured externally. -/
def startNewSession (now : Int) (date : String) (st : ExtState) : ExtState :=
  { st with
    currentSession :=
      some { startTime := now, endTime := none, date := date, duration := none } }

/-- The closing step of `endCurrentSession` (extension.ts lines 55-57):
set `endTime` to the captured instant and `duration` to
`endTime - startTime`. -/
def closeSession (now : Int) (s : UsageSession) : UsageSession :=
  { s with endTime := some now, duration := some (now - s.startTime) }

/-- The pure merge performed by `saveSession` (extension.ts lines 68-71):
push the session, and add `session.duration` to `totalTimeMs` only when
`session.duration` is truthy (`null` and `0` are falsy in JavaScript). -/
def mergeSession (log : UsageData) (session : UsageSession) : UsageData :=
  { sessions := log.sessions ++ [session]
    totalTimeMs :=
      match session.duration with
      | some d => if d = 0 then log.totalTimeMs else log.totalTimeMs + d
      | none => log.totalTimeMs }

/-- `saveSession` (extension.ts lines 65-74): read the stored log (absent
means the empty log), merge the session, write the result back. -/
def saveSession (session : UsageSession) (st : ExtState) : ExtState :=
  { st with
    store := some (mergeSession (st.store.getD emptyUsage) session)
    writes := st.writes + 1 }

/-- `endCurrentSession` (extension.ts lines 53-63): when a session is open,
close it, persist it via `saveSession`, and reset `currentSession` to
`null`; otherwise do nothing. -/
def endCurrentSession (now : Int) (st : ExtState) : ExtState :=
  match st.currentSession with
  | some s => { saveSession (closeSession now s) st with currentSession := none }
  | none => st

/-- `formatDuration` (extension.ts lines 76-85). -/
def formatDuration (milliseconds : Int) : String :=
  let seconds := Int.fdiv milliseconds 1000
  let minutes := Int.fdiv seconds 60
  let hours := Int.fdiv minutes 60
  let remainingMinutes := Int.tmod minutes 60
  let remainingSeconds := Int.tmod seconds 60
  toString hours ++ "h " ++ toString remainingMinutes ++ "m " ++
    toString remainingSeconds ++ "s"

/-- The duplicate `formatDuration` inlined in the webview script
(extension.ts lines 232-239). -/
def formatDurationWebview (ms : Int) : String :=
  let seconds := Int.fdiv ms 1000
  let minutes := Int.fdiv seconds 60
  let hours := Int.fdiv minutes 60
  let mins := Int.tmod minutes 60
  let secs := Int.tmod seconds 60
  toString hours ++ "h " ++ toString mins ++ "m " ++ toString secs ++ "s"

/-- One step of the grouping loop (extension.ts lines 102-107): if the map
has no bucket for `session.date` a fresh bucket is created (at the end of
the key order), then the session is pushed onto its date's bucket. -/
def insertByDate (m : List (String × List UsageSession)) (s : UsageSession) :
    List (String × List UsageSession) :=
  match m with
  | [] => [(s.date, [s])]
  | (d, b) :: rest =>
      if d = s.date then (d, b ++ [s]) :: rest else (d, b) :: insertByDate rest s

/-- The `sessionsByDate` map built at extension.ts lines 101-107. -/
def sessionsByDate (sessions : List UsageSession) :
    List (String × List UsageSession) :=
  sessions.foldl insertByDate []

/-- `session.duration || 0` (extension.ts line 112): `null` and `0` are
falsy, everything else passes through. -/
def durationOrZero (duration : Option Int) : Int :=
  match duration with
  | some d => if d = 0 then 0 else d
  | none => 0

/-- The `dailyTotals` map (extension.ts lines 110-114): per date bucket,
`sessions.reduce((sum, session) => sum + (session.duration || 0), 0)`. -/
def dailyTotals (m : List (String × List UsageSession)) : List (String × Int) :=
  m.map (fun p => (p.1, p.2.foldl (fun sum s => sum + durationOrZero s.duration) 0))

/-- `sessionsByDate.get(date)` with the `?.length || 0` default of line 127:
an absent bucket behaves as the empty bucket. -/
def bucketOf (date : String) : List (String × List UsageSession) → List UsageSession
  | [] => []
  | (d, b) :: rest => if d = date then b else bucketOf date rest

/-- `dailyTotals.get(date) || 0` (extension.ts line 121). -/
def totalOf (date : String) : List (String × Int) → Int
  | [] => 0
  | (d, v) :: rest => if d = date then v else totalOf date rest

/-- `Array.from(dailyTotals.keys()).sort().reverse()` (extension.ts
line 118): ascending lexicographic sort of the bucket dates, reversed. -/
def sortedDates (totals : List (String × Int)) : List String :=
  (List.insertionSort (fun a b => a ≤ b) (totals.map Prod.fst)).reverse

/-- One table row of the report (extension.ts lines 123-129): the date, its
formatted daily total, and its session count. -/
structure ReportRow where
  date : String
  total : String
  count : Nat
deriving DecidableEq, Repr

/-- The row built for one date in the loop at extension.ts lines 120-130. -/
def mkRow (byDate : List (String × List UsageSession))
    (totals : List (String × Int)) (date : String) : ReportRow :=
  { date := date
    total := formatDuration (totalOf date totals)
    count := (bucketOf date byDate).length }

/-- The `tableRows` sequence (extension.ts lines 117-130): one row per
sorted date. -/
def reportRows (usageData : UsageData) : List ReportRow :=
  (sortedDates (dailyTotals (sessionsByDate usageData.sessions))).map
    (mkRow (sessionsByDate usageData.sessions)
      (dailyTotals (sessionsByDate usageData.sessions)))

/-- One chart bar created by the webview script (extension.ts lines
218-230). Its height is the proportion `value / scaleMax`; the division is
recorded symbolically (numerator and denominator) because the script
performs it in floating point. `scaleMax = none` models
`Math.max(...[]) = -Infinity`, which is never reached since no bar is
created from an empty `dailyData`. -/
structure ChartBar where
  date : String
  value : Int
  scaleMax : Option Int
deriving DecidableEq, Repr

/-- `Math.max(...dailyData.map(d => d[1]))` (extension.ts line 215),
with `none` standing for the `-Infinity` of an empty spread. -/
def jsMaxList (l : List Int) : Option Int :=
  l.foldl (fun acc v => some (max (acc.getD v) v)) none

/-- The rendered report surface of `showUsageStats` (extension.ts lines
87-245): the top-line total (line 187), the table rows (lines 117-130,
204), the serialized `dailyData` handed to the script (line 212), and the
chart bars the script creates (lines 218-230). -/
structure Report where
  totalLine : String
  rows : List ReportRow
  dailyData : List (String × Int)
  bars : List ChartBar
deriving DecidableEq, Repr

/-- `showUsageStats` (extension.ts lines 87-245) as a function of the
stored value under the key `usageData`. -/
def showUsageStats (store : Option UsageData) : Report :=
  let usageData := store.getD emptyUsage
  let totals := dailyTotals (sessionsByDate usageData.sessions)
  let maxValue := jsMaxList (totals.map Prod.snd)
  { totalLine := formatDuration usageData.totalTimeMs
    rows := reportRows usageData
    dailyData := totals
    bars := totals.map (fun p => { date := p.1, value := p.2, scaleMax := maxValue }) }

/-- A host lifecycle event: `activate` runs `startNewSession` (with the
captured instant and calendar date), `deactivate` runs
`endCurrentSession`. -/
inductive HostEvent where
  | activate (now : Int) (date : String)
  | deactivate (now : Int)
deriving DecidableEq, Repr

/-- The instant a start event would stamp on its new session, if any. -/
def HostEvent.startInstant : HostEvent → Option Int
  | .activate now _ => some now
  | .deactivate _ => none

/-- One host-driven step of the extension. -/
def step (st : ExtState) (e : HostEvent) : ExtState :=
  match e with
  | .activate now date => startNewSession now date st
  | .deactivate now => endCurrentSession now st

/-- Run a sequence of host events. -/
def run (st : ExtState) (evs : List HostEvent) : ExtState :=
  evs.foldl step st

/-- Sum of the sessions' durations, an absent duration counting as 0. -/
def sumDurations (l : List UsageSession) : Int :=
  (l.map (fun s => s.duration.getD 0)).sum

/-! ## Merge accumulation (C1) -/

theorem mergeSession_sessions (log : UsageData) (s : UsageSession) :
    (mergeSession log s).sessions = log.sessions ++ [s] := rfl

theorem mergeSession_totalTimeMs (log : UsageData) (s : UsageSession) :
    (mergeSession log s).totalTimeMs = log.totalTimeMs + s.duration.getD 0 := by
  unfold mergeSession
  cases s.duration with
  | none => simp
  | some d =>
      by_cases hd : d = 0 <;> simp [hd]

theorem foldl_mergeSession_sessions (l : List UsageSession) (log : UsageData) :
    (l.foldl mergeSession log).sessions = log.sessions ++ l := by
  induction l generalizing log with
  | nil => simp
  | cons s t ih =>
      rw [List.foldl_cons, ih, mergeSession_sessions]
      simp

theorem foldl_mergeSession_total (l : List UsageSession) (log : UsageData) :
    (l.foldl mergeSession log).totalTimeMs = log.totalTimeMs + sumDurations l := by
  induction l generalizing log with
  | nil => simp [sumDurations]
  | cons s t ih =>
      rw [List.foldl_cons, ih, mergeSession_totalTimeMs]
      simp [sumDurations]
      ring

/-- C1: merging any sequence of sessions one at a time into the empty log
appends every session (an absent duration still being appended) and leaves
`totalTimeMs` equal to the sum of the durations, an absent duration
counting as 0; since the sequence is arbitrary, the invariant
`totalTimeMs = sum of durations` holds at every observation point after a
merge (every prefix of merges is itself such a sequence). -/
theorem log_totalTimeMs_invariant (l : List UsageSession) :
    (l.foldl mergeSession emptyUsage).sessions = l ∧
    (l.foldl mergeSession emptyUsage).totalTimeMs = sumDurations l := by
  constructor
  · simpa [emptyUsage] using foldl_mergeSession_sessions l emptyUsage
  · simpa [emptyUsage] using foldl_mergeSession_total l emptyUsage

/-! ## formatDuration (C2, C9) -/

theorem toString_intCast (n : Nat) : toString ((n : Nat) : Int) = toString n := rfl

theorem formatDuration_natCast (ms : Nat) :
    formatDuration (ms : Int) =
      toString (ms / 1000 / 60 / 60) ++ "h " ++ toString (ms / 1000 / 60 % 60) ++
        "m " ++ toString (ms / 1000 % 60) ++ "s" := by
  have hsec : Int.fdiv (ms : Int) 1000 = ((ms / 1000 : Nat) : Int) := by
    rw [Int.fdiv_eq_ediv _ (by decide)]
    norm_cast
  have hmin : Int.fdiv ((ms / 1000 : Nat) : Int) 60 = ((ms / 1000 / 60 : Nat) : Int) := by
    rw [Int.fdiv_eq_ediv _ (by decide)]
    norm_cast
  have hhr : Int.fdiv ((ms / 1000 / 60 : Nat) : Int) 60 =
      ((ms / 1000 / 60 / 60 : Nat) : Int) := by
    rw [Int.fdiv_eq_ediv _ (by decide)]
    norm_cast
  have hmod1 : Int.tmod ((ms / 1000 / 60 : Nat) : Int) 60 =
      ((ms / 1000 / 60 % 60 : Nat) : Int) := by
    rw [Int.tmod_eq_emod (Int.natCast_nonneg _) (by decide)]
    norm_cast
  have hmod2 : Int.tmod ((ms / 1000 : Nat) : Int) 60 =
      ((ms / 1000 % 60 : Nat) : Int) := by
    rw [Int.tmod_eq_emod (Int.natCast_nonneg _) (by decide)]
    norm_cast
  simp only [formatDuration]
  rw [hsec, hmin, hhr, hmod1, hmod2, toString_intCast, toString_intCast, toString_intCast]

/-- C2: on every non-negative integer input, `formatDuration` prints
exactly `{hours}h {minutes}m {seconds}s` with hours = ms / 3600000,
minutes = ms / 60000 mod 60, seconds = ms / 1000 mod 60 (floor division,
no rounding), and in particular the three example values print as the
spec states. -/
theorem formatDuration_decomposes (ms : Nat) :
    (formatDuration (ms : Int) =
      toString (ms / 3600000) ++ "h " ++ toString (ms / 60000 % 60) ++ "m " ++
        toString (ms / 1000 % 60) ++ "s") ∧
    formatDuration ((3661000 : Nat) : Int) = "1h 1m 1s" ∧
    formatDuration ((0 : Nat) : Int) = "0h 0m 0s" ∧
    formatDuration ((59999 : Nat) : Int) = "0h 0m 59s" := by
  refine ⟨?_, by decide, by decide, by decide⟩
  rw [formatDuration_natCast]
  norm_num [Nat.div_div_eq_div_mul]

/-- C9: the `formatDuration` duplicated inside the generated webview script
computes exactly the same string as the core `formatDuration` on every
non-negative millisecond input. -/
theorem webview_formatDuration_eq_core (ms : Nat) :
    formatDurationWebview (ms : Int) = formatDuration (ms : Int) := rfl

/-! ## Grouping by date (C3) -/

theorem durationOrZero_getD (o : Option Int) : durationOrZero o = o.getD 0 := by
  cases o with
  | none => rfl
  | some d => by_cases hd : d = 0 <;> simp [durationOrZero, hd]

theorem bucketOf_insertByDate (d : String) (m : List (String × List UsageSession))
    (s : UsageSession) :
    bucketOf d (insertByDate m s) =
      if s.date = d then bucketOf d m ++ [s] else bucketOf d m := by
  induction m with
  | nil =>
      by_cases h : s.date = d <;> simp [insertByDate, bucketOf, h]
  | cons p rest ih =>
      obtain ⟨k, b⟩ := p
      simp only [insertByDate]
      by_cases hk : k = s.date
      · rw [if_pos hk]
        simp only [bucketOf]
        by_cases hd : k = d
        · have hsd : s.date = d := hk ▸ hd
          simp [hd, hsd]
        · have hsd : ¬ s.date = d := fun h => hd (hk.trans h)
          simp [hd, hsd]
      · rw [if_neg hk]
        simp only [bucketOf]
        by_cases hd : k = d
        · have hsd : ¬ s.date = d := fun h => hk (hd.trans h.symm)
          simp [hd, hsd]
        · simp [hd, ih]

theorem bucketOf_foldl_insertByDate (l : List UsageSession)
    (m : List (String × List UsageSession)) (d : String) :
    bucketOf d (l.foldl insertByDate m) =
      bucketOf d m ++ l.filter (fun s => s.date = d) := by
  induction l generalizing m with
  | nil => simp
  | cons s t ih =>
      rw [List.foldl_cons, ih, bucketOf_insertByDate]
      by_cases h : s.date = d
      · simp [List.filter_cons, h]
      · simp [List.filter_cons, h]

theorem bucketOf_sessionsByDate (l : List UsageSession) (d : String) :
    bucketOf d (sessionsByDate l) = l.filter (fun s => s.date = d) := by
  simpa [sessionsByDate, bucketOf] using bucketOf_foldl_insertByDate l [] d

theorem totalOf_dailyTotals (d : String) (m : List (String × List UsageSession)) :
    totalOf d (dailyTotals m) =
      (bucketOf d m).foldl (fun sum s => sum + durationOrZero s.duration) 0 := by
  induction m with
  | nil => rfl
  | cons p rest ih =>
      obtain ⟨k, b⟩ := p
      have hdt : dailyTotals ((k, b) :: rest) =
          (k, b.foldl (fun sum s => sum + durationOrZero s.duration) 0) ::
            dailyTotals rest := rfl
      rw [hdt]
      by_cases hk : k = d
      · simp [totalOf, bucketOf, hk]
      · simp [totalOf, bucketOf, hk, ih]

theorem foldl_add_durationOrZero (b : List UsageSession) (a : Int) :
    b.foldl (fun sum s => sum + durationOrZero s.duration) a = a + sumDurations b := by
  induction b generalizing a with
  | nil => simp [sumDurations]
  | cons s t ih =>
      rw [List.foldl_cons, ih, durationOrZero_getD]
      simp [sumDurations]
      ring

theorem totalOf_eq_sumDurations (d : String) (m : List (String × List UsageSession)) :
    totalOf d (dailyTotals m) = sumDurations (bucketOf d m) := by
  rw [totalOf_dailyTotals, foldl_add_durationOrZero]
  simp

/-- C3: grouping partitions the sessions by their own `date` field — for
every date, its bucket is exactly the subsequence of `log.sessions` whose
`date` equals it, in insertion order (so every session lands in exactly the
one bucket keyed by its own date) — and the daily total of every date is
the sum of the durations in that date's bucket, an absent duration
counting as 0. -/
theorem groupByDate_partition_dailyTotals (log : UsageData) (d : String) :
    bucketOf d (sessionsByDate log.sessions) =
      log.sessions.filter (fun s => s.date = d) ∧
    totalOf d (dailyTotals (sessionsByDate log.sessions)) =
      sumDurations (log.sessions.filter (fun s => s.date = d)) := by
  refine ⟨bucketOf_sessionsByDate _ _, ?_⟩
  rw [totalOf_eq_sumDurations, bucketOf_sessionsByDate]

/-! ## Closing a session (C4) -/

/-- C4: closing an open session stamps the captured instant as `endTime`
and sets `duration = endTime - startTime`, so the result is closed (both
fields present, `duration = endTime - startTime`), and the duration is
non-negative whenever the captured instant is not earlier than
`startTime`. -/
theorem closeSession_closes (s : UsageSession) (now : Int)
    (hopen : s.endTime = none) (hord : s.startTime ≤ now) :
    (closeSession now s).endTime = some now ∧
    (closeSession now s).duration = some (now - s.startTime) ∧
    0 ≤ now - s.startTime := by
  refine ⟨rfl, rfl, ?_⟩
  omega

/-- A concrete open session used by the witnesses. -/
def openSessionA : UsageSession :=
  { startTime := 100, endTime := none, date := "2024-01-01", duration := none }

theorem closeSession_closes_witness :
    (closeSession 5100 openSessionA).endTime = some 5100 ∧
    (closeSession 5100 openSessionA).duration = some (5100 - 100) ∧
    (0 : Int) ≤ 5100 - 100 :=
  closeSession_closes openSessionA 5100 rfl (by decide)

/-! ## Absent store treated as empty log (C8) -/

/-- C8: when the persistence store holds nothing under the usage-data key,
both the merge path (`saveSession`) and the report path (`showUsageStats`)
behave exactly as if the stored value were the empty log
`{ sessions := [], totalTimeMs := 0 }`. -/
theorem absent_store_treated_as_empty (session : UsageSession) (st : ExtState)
    (h : st.store = none) :
    saveSession session st = saveSession session { st with store := some emptyUsage } ∧
    showUsageStats st.store = showUsageStats (some emptyUsage) := by
  obtain ⟨c, sto, w⟩ := st
  simp only at h
  subst h
  exact ⟨rfl, rfl⟩

theorem absent_store_treated_as_empty_witness :
    saveSession openSessionA { currentSession := none, store := none, writes := 0 } =
      saveSession openSessionA
        { currentSession := none, store := some emptyUsage, writes := 0 } ∧
    showUsageStats (ExtState.store { currentSession := none, store := none, writes := 0 }) =
      showUsageStats (some emptyUsage) :=
  absent_store_treated_as_empty openSessionA
    { currentSession := none, store := none, writes := 0 } rfl

/-! ## Ending with no open session is a no-op (C10) -/

/-- C10: `endCurrentSession` with no open session (in particular any second
consecutive close, since a close resets `currentSession` to `null`) changes
nothing — no session is appended, the stored log is untouched, and no store
write happens — so a close-then-close sequence persists exactly one
session, with exactly one store write. -/
theorem endCurrentSession_noop_when_closed (st stOpen : ExtState) (s : UsageSession)
    (t1 t2 : Int) (h : st.currentSession = none)
    (hopen : stOpen.currentSession = some s) :
    endCurrentSession t1 st = st ∧
    endCurrentSession t2 (endCurrentSession t1 stOpen) = endCurrentSession t1 stOpen ∧
    ((endCurrentSession t1 stOpen).store.getD emptyUsage).sessions =
      (stOpen.store.getD emptyUsage).sessions ++ [closeSession t1 s] ∧
    (endCurrentSession t1 stOpen).writes = stOpen.writes + 1 := by
  refine ⟨?_, ?_, ?_, ?_⟩
  · simp [endCurrentSession, h]
  · simp [endCurrentSession, hopen, saveSession]
  · simp [endCurrentSession, hopen, saveSession, mergeSession]
  · simp [endCurrentSession, hopen, saveSession]

/-- A concrete state with an open session used by the C10 witness. -/
def stOpenA : ExtState :=
  { currentSession := some openSessionA
    store := some { sessions := [], totalTimeMs := 0 }
    writes := 0 }

/-- A concrete state with no open session used by the C10 witness. -/
def stClosedA : ExtState :=
  { currentSession := none, store := none, writes := 2 }

theorem endCurrentSession_noop_when_closed_witness :
    endCurrentSession 7 stClosedA = stClosedA ∧
    endCurrentSession 9 (endCurrentSession 7 stOpenA) = endCurrentSession 7 stOpenA ∧
    ((endCurrentSession 7 stOpenA).store.getD emptyUsage).sessions =
      (stOpenA.store.getD emptyUsage).sessions ++ [closeSession 7 openSessionA] ∧
    (endCurrentSession 7 stOpenA).writes = stOpenA.writes + 1 :=
  endCurrentSession_noop_when_closed stClosedA stOpenA openSessionA 7 9 rfl rfl

/-! ## Overlapping start discards the open session (C5) -/

/-- No session whose `startTime` is `x` is held in the store or open in
`st`. Used to show that a discarded session's data can never reappear. -/
def avoidsStart (x : Int) (st : ExtState) : Prop :=
  (∀ u ∈ (st.store.getD emptyUsage).sessions, u.startTime ≠ x) ∧
  (∀ c, st.currentSession = some c → c.startTime ≠ x)

theorem avoidsStart_step (x : Int) (st : ExtState) (e : HostEvent)
    (hst : avoidsStart x st) (he : HostEvent.startInstant e ≠ some x) :
    avoidsStart x (step st e) := by
  obtain ⟨hstore, hcur⟩ := hst
  cases e with
  | activate now date =>
      refine ⟨hstore, ?_⟩
      intro c hc
      simp only [step, startNewSession, Option.some.injEq] at hc
      have hnow : now ≠ x := by
        intro h
        exact he (by simp [HostEvent.startInstant, h])
      rw [← hc]
      exact hnow
  | deactivate now =>
      cases hc : st.currentSession with
      | none =>
          simpa [step, endCurrentSession, hc] using ⟨hstore, hcur⟩
      | some c =>
          constructor
          · intro u hu
            simp only [step, endCurrentSession, hc, saveSession, mergeSession,
              Option.getD_some, List.mem_append, List.mem_singleton] at hu
            rcases hu with hu | hu
            · exact hstore u hu
            · rw [hu]
              exact hcur c hc
          · intro c2 hc2
            simp [step, endCurrentSession, hc, saveSession] at hc2

theorem avoidsStart_run (x : Int) (evs : List HostEvent) (st : ExtState)
    (hst : avoidsStart x st)
    (hevs : ∀ e ∈ evs, HostEvent.startInstant e ≠ some x) :
    avoidsStart x (run st evs) := by
  induction evs generalizing st with
  | nil => simpa [run]
  | cons e t ih =>
      have h1 : avoidsStart x (step st e) :=
        avoidsStart_step x st e hst (hevs e (List.mem_cons_self e t))
      have h2 : ∀ e2 ∈ t, HostEvent.startInstant e2 ≠ some x := fun e2 he2 =>
        hevs e2 (List.mem_cons_of_mem e he2)
      simpa [run, List.foldl_cons] using ih (step st e) h1 h2

/-- C5: starting a session while one is already open silently discards the
open session: the store is not written, the fresh open session replaces the
old one (so the state never holds more than one open session), and — for
any continuation of host events whose start instants differ from the
discarded session's start time, from a store not already holding that start
time — no session carrying the discarded session's `startTime` is ever
persisted. -/
theorem startNewSession_discards_open (st : ExtState) (s : UsageSession) (now : Int)
    (date : String) (evs : List HostEvent)
    (hopen : st.currentSession = some s)
    (hnow : now ≠ s.startTime)
    (hevs : ∀ e ∈ evs, HostEvent.startInstant e ≠ some s.startTime)
    (hstore : ∀ u ∈ (st.store.getD emptyUsage).sessions, u.startTime ≠ s.startTime) :
    (startNewSession now date st).store = st.store ∧
    (startNewSession now date st).writes = st.writes ∧
    (startNewSession now date st).currentSession =
      some { startTime := now, endTime := none, date := date, duration := none } ∧
    ∀ u ∈ ((run (startNewSession now date st) evs).store.getD emptyUsage).sessions,
      u.startTime ≠ s.startTime := by
  refine ⟨rfl, rfl, rfl, ?_⟩
  have h0 : avoidsStart s.startTime (startNewSession now date st) := by
    constructor
    · simpa [startNewSession] using hstore
    · intro c hc
      simp only [startNewSession, Option.some.injEq] at hc
      rw [← hc]
      exact hnow
  exact (avoidsStart_run s.startTime evs _ h0 hevs).1

/-- A concrete open session with start time 0, for the C5 witness. -/
def openSessionZero : UsageSession :=
  { startTime := 0, endTime := none, date := "2024-01-01", duration := none }

/-- A concrete state with an open session of start time 0, for the C5
witness. -/
def stOverlapA : ExtState :=
  { currentSession := some openSessionZero
    store := some { sessions := [], totalTimeMs := 0 }
    writes := 0 }

/-- Concrete continuation events for the C5 witness. -/
def evsA : List HostEvent :=
  [HostEvent.deactivate 9, HostEvent.activate 10 "2024-01-01", HostEvent.deactivate 20]

theorem startNewSession_discards_open_witness :
    (startNewSession 5 "2024-01-01" stOverlapA).store = stOverlapA.store ∧
    (startNewSession 5 "2024-01-01" stOverlapA).writes = stOverlapA.writes ∧
    (startNewSession 5 "2024-01-01" stOverlapA).currentSession =
      some { startTime := 5, endTime := none, date := "2024-01-01", duration := none } ∧
    ∀ u ∈ ((run (startNewSession 5 "2024-01-01" stOverlapA) evsA).store.getD
        emptyUsage).sessions, u.startTime ≠ 0 :=
  startNewSession_discards_open stOverlapA openSessionZero
    5 "2024-01-01" evsA rfl (by decide) (by decide) (by decide)

/-! ## Report rendering (C6, C7) -/

theorem keys_insertByDate (m : List (String × List UsageSession)) (s : UsageSession) :
    (insertByDate m s).map Prod.fst =
      if s.date ∈ m.map Prod.fst then m.map Prod.fst
      else m.map Prod.fst ++ [s.date] := by
  induction m with
  | nil => simp [insertByDate]
  | cons p rest ih =>
      obtain ⟨k, b⟩ := p
      simp only [insertByDate]
      by_cases hk : k = s.date
      · rw [if_pos hk]
        have hmem : s.date ∈ ((k, b) :: rest).map Prod.fst := by
          rw [List.map_cons]
          exact List.mem_cons.mpr (Or.inl hk.symm)
        rw [if_pos hmem]
        simp
      · rw [if_neg hk]
        have hne : s.date ≠ k := fun h => hk h.symm
        by_cases hm : s.date ∈ rest.map Prod.fst
        · have hmem : s.date ∈ ((k, b) :: rest).map Prod.fst := by
            rw [List.map_cons]
            exact List.mem_cons.mpr (Or.inr hm)
          rw [if_pos hmem]
          simp [List.map_cons, ih, hm]
        · have hmem : s.date ∉ ((k, b) :: rest).map Prod.fst := by
            rw [List.map_cons]
            intro hc
            rcases List.mem_cons.mp hc with hc | hc
            · exact hne hc
            · exact hm hc
          rw [if_neg hmem]
          simp [List.map_cons, ih, hm]

theorem keys_nodup_foldl (l : List UsageSession)
    (m : List (String × List UsageSession)) (hm : (m.map Prod.fst).Nodup) :
    ((l.foldl insertByDate m).map Prod.fst).Nodup := by
  induction l generalizing m with
  | nil => simpa using hm
  | cons s t ih =>
      rw [List.foldl_cons]
      apply ih
      rw [keys_insertByDate]
      by_cases h : s.date ∈ m.map Prod.fst
      · rwa [if_pos h]
      · rw [if_neg h]
        simp [List.nodup_append, hm, h]

theorem keys_nodup_sessionsByDate (l : List UsageSession) :
    ((sessionsByDate l).map Prod.fst).Nodup :=
  keys_nodup_foldl l [] (by simp)

theorem keys_dailyTotals (m : List (String × List UsageSession)) :
    (dailyTotals m).map Prod.fst = m.map Prod.fst := by
  induction m with
  | nil => rfl
  | cons p rest ih =>
      simp only [dailyTotals, List.map_cons] at ih ⊢
      rw [ih]

theorem sortedDates_sorted_descending (totals : List (String × Int))
    (h : (totals.map Prod.fst).Nodup) :
    (sortedDates totals).Sorted (fun a b => b < a) := by
  have hs : (List.insertionSort (fun a b => a ≤ b) (totals.map Prod.fst)).Sorted
      (fun a b => a ≤ b) := List.sorted_insertionSort _ _
  have hperm := List.perm_insertionSort (fun a b => a ≤ b) (totals.map Prod.fst)
  have hnd : (List.insertionSort (fun a b => a ≤ b) (totals.map Prod.fst)).Nodup :=
    hperm.nodup_iff.mpr h
  have hlt : (List.insertionSort (fun a b => a ≤ b) (totals.map Prod.fst)).Sorted
      (fun a b => a < b) := hs.lt_of_le hnd
  unfold sortedDates
  exact List.pairwise_reverse.mpr hlt

theorem reportRows_map_date (u : UsageData) :
    (reportRows u).map ReportRow.date =
      sortedDates (dailyTotals (sessionsByDate u.sessions)) := by
  unfold reportRows
  rw [List.map_map]
  have hcomp : (ReportRow.date ∘ mkRow (sessionsByDate u.sessions)
      (dailyTotals (sessionsByDate u.sessions))) = fun d => d := by
    funext d
    rfl
  rw [hcomp]
  exact List.map_id' _

theorem mkRow_eq_filter (l : List UsageSession) (d : String) :
    mkRow (sessionsByDate l) (dailyTotals (sessionsByDate l)) d =
      { date := d
        total := formatDuration (sumDurations (l.filter (fun s => s.date = d)))
        count := (l.filter (fun s => s.date = d)).length } := by
  unfold mkRow
  rw [totalOf_eq_sumDurations, bucketOf_sessionsByDate]

/-- C6: the report rows are ordered by bucket date in strictly descending
lexicographic order; the row dates are exactly the bucket dates (a
permutation of the `dailyTotals` keys); each row carries the formatted
daily total and the session count of its own date's bucket; and the top
line is `formatDuration(log.totalTimeMs)`. -/
theorem showUsageStats_rows_sorted_content (log : UsageData) :
    ((showUsageStats (some log)).rows.map ReportRow.date).Sorted (fun a b => b < a) ∧
    ((showUsageStats (some log)).rows.map ReportRow.date).Perm
      ((dailyTotals (sessionsByDate log.sessions)).map Prod.fst) ∧
    (showUsageStats (some log)).rows =
      ((showUsageStats (some log)).rows.map ReportRow.date).map (fun d =>
        { date := d
          total := formatDuration (sumDurations (log.sessions.filter (fun s => s.date = d)))
          count := (log.sessions.filter (fun s => s.date = d)).length }) ∧
    (showUsageStats (some log)).totalLine = formatDuration log.totalTimeMs := by
  have hrows : (showUsageStats (some log)).rows = reportRows log := rfl
  have hkeys : ((dailyTotals (sessionsByDate log.sessions)).map Prod.fst).Nodup := by
    rw [keys_dailyTotals]
    exact keys_nodup_sessionsByDate log.sessions
  refine ⟨?_, ?_, ?_, rfl⟩
  · rw [hrows, reportRows_map_date]
    exact sortedDates_sorted_descending _ hkeys
  · rw [hrows, reportRows_map_date]
    unfold sortedDates
    exact (List.reverse_perm _).trans (List.perm_insertionSort _ _)
  · rw [hrows, reportRows_map_date]
    unfold reportRows
    rw [funext (mkRow_eq_filter log.sessions)]

/-- C7: on the empty log the report has zero table rows, a top-line
duration of `0h 0m 0s`, an empty `dailyData` payload hence zero chart
bars — the per-bar proportional computation (the only place a division by
the maximum daily total occurs) is never executed, so no division by zero
is performed. -/
theorem showUsageStats_empty_log :
    (showUsageStats (some emptyUsage)).rows = [] ∧
    (showUsageStats (some emptyUsage)).totalLine = "0h 0m 0s" ∧
    (showUsageStats (some emptyUsage)).dailyData = [] ∧
    (showUsageStats (some emptyUsage)).bars = [] := by
  exact ⟨rfl, by decide, rfl, rfl⟩
